import Mathlib

/-!
Verification of the document engine of the Groot behavior-tree editor
(`src/bt_editor/mainwindow.cpp`).

The development shallowly embeds the editor state and the operations of
`MainWindow`: the undo/redo snapshot engine (`onPushUndo`, `onUndoInvoked`,
`onRedoInvoked`, `loadSceneFromYAML`), the load/save paths (`loadFromXML`,
`on_actionSave_triggered`), the validity indicator (`onSceneChanged`), the
orientation switch (`refreshNodesLayout`, `on_toolButtonLayout_clicked`) and
the monitor/replay delivery (`on_loadBehaviorTree`).

Helpers that live outside the repository snapshot (the XML codec helpers
`ReadTreeNodesModel`, `CreateTreeInSceneFromXML`, `RecursivelyCreateXml`, the
scene snapshot functions `saveToMemory` / `loadFromMemory` of QtNodes, and
`findRoots` / `getChildren` / `toStr`) are modelled from the specification;
each such definition carries a doc comment starting with
"Modelled from the spec:".

Modelling conventions:
* A scene is carried as the pair of its document forest and its orientation.
  Node positions are, per the spec, a pure function of (tree structure,
  orientation), so they are derived data and the reorder operations are the
  identity on the carried state.
* A snapshot is a faithful, injective serialization of a scene (spec, design
  notes: restore is exact, push/dedup comparison is by value equality of the
  encoding); it is therefore modelled as the scene value itself, so that
  byte-for-byte equality of snapshots is value equality of scenes.
* In `on_actionSave_triggered` the statement
  `param_node->InsertEndChild(root_models)` transiently reparents the
  `TreeNodesModel` element under a `Parameter` element; every later
  `InsertEndChild` of tinyxml2 first unlinks its argument from its current
  parent, and the final `root->InsertEndChild(root_models)` unlinks it from
  the last `Parameter` element, so the printed document is exactly the
  intended one (`Parameter` elements carry only their `label` / `type`
  attributes, and `TreeNodesModel` sits directly under `root`).  The
  embedding models this net effect.
-/

/-- The three editor modes (`GraphicMode` in the source). -/
inductive GraphicMode where
  | EDITOR
  | MONITOR
  | REPLAY
deriving DecidableEq, Repr

/-- The two orientations (`QtNodes::PortLayout` as used by the source). -/
inductive PortLayout where
  | Horizontal
  | Vertical
deriving DecidableEq, Repr

/-- Modelled from the spec: the closed enumeration of node categories
(`NodeType` of the registry; spec section 3: Root, Control, Decorator,
Action, Subtree). -/
inductive NodeType where
  | Root
  | Control
  | Decorator
  | Action
  | Subtree
deriving DecidableEq, Repr

/-- Modelled from the spec: `toStr(NodeType)` of `utils.h`, the XML element
name of each category tag (used for the `TreeNodesModel` section). -/
def toStr : NodeType → String
  | .Root => "Root"
  | .Control => "Control"
  | .Decorator => "Decorator"
  | .Action => "Action"
  | .Subtree => "SubTree"

/-- Modelled from the spec: the inverse of `toStr`, used when decoding the
`TreeNodesModel` section (each entry's XML element name is the category
tag). -/
def nodeTypeFromStr (s : String) : Option NodeType :=
  if s = "Root" then some .Root
  else if s = "Control" then some .Control
  else if s = "Decorator" then some .Decorator
  else if s = "Action" then some .Action
  else if s = "SubTree" then some .Subtree
  else none

/-- A document node (spec section 3, `DocumentNode`): a type name, the
parameter values (label → value, in order), and the ordered children. -/
inductive TreeNode where
  | mk (type_name : String) (params : List (String × String)) (children : List TreeNode)
deriving Repr

/-- The declared type name of a node. -/
def TreeNode.type_name : TreeNode → String
  | .mk n _ _ => n

/-- The parameter values of a node. -/
def TreeNode.params : TreeNode → List (String × String)
  | .mk _ p _ => p

/-- The ordered children of a node. -/
def TreeNode.children : TreeNode → List TreeNode
  | .mk _ _ c => c

mutual

/-- Decidable equality of document nodes (snapshot comparison in
`onPushUndo` is byte-for-byte comparison of serialized state, i.e. value
equality under the faithful-serialization model). -/
def TreeNode.decEq : (a b : TreeNode) → Decidable (a = b)
  | .mk n p c, .mk n' p' c' =>
    match String.decEq n n' with
    | isFalse h => isFalse (by simp [h])
    | isTrue h1 =>
      match (inferInstance : Decidable (p = p')) with
      | isFalse h => isFalse (by simp [h])
      | isTrue h2 =>
        match TreeNode.decEqList c c' with
        | isFalse h => isFalse (by simp [h])
        | isTrue h3 => isTrue (by rw [h1, h2, h3])

/-- Decidable equality of lists of document nodes. -/
def TreeNode.decEqList : (a b : List TreeNode) → Decidable (a = b)
  | [], [] => isTrue rfl
  | [], _ :: _ => isFalse (by simp)
  | _ :: _, [] => isFalse (by simp)
  | x :: xs, y :: ys =>
    match TreeNode.decEq x y with
    | isFalse h => isFalse (by simp [h])
    | isTrue h1 =>
      match TreeNode.decEqList xs ys with
      | isFalse h => isFalse (by simp [h])
      | isTrue h2 => isTrue (by rw [h1, h2])

end

instance : DecidableEq TreeNode := TreeNode.decEq

/-- One entry of the `TreeNodesModel` (spec section 3): a category tag and
the declared parameters (label → type name). -/
structure NodeModel where
  node_type : NodeType
  params : List (String × String)
deriving DecidableEq, Repr

/-- The `TreeNodesModel`: the ordered mapping from declared `ID` to its
model record (`_tree_nodes_model` in the source). -/
abbrev TreeNodesModel := List (String × NodeModel)

/-- The XML document tree built by tinyxml2 in the source: elements with a
tag, attributes and ordered children, and comment nodes. -/
inductive XML where
  | elem (tag : String) (attrs : List (String × String)) (children : List XML)
  | comment (text : String)
deriving Repr

mutual

/-- Decidable equality of XML trees. -/
def XML.decEq : (a b : XML) → Decidable (a = b)
  | .elem t a c, .elem t' a' c' =>
    match String.decEq t t' with
    | isFalse h => isFalse (by simp [h])
    | isTrue h1 =>
      match (inferInstance : Decidable (a = a')) with
      | isFalse h => isFalse (by simp [h])
      | isTrue h2 =>
        match XML.decEqList c c' with
        | isFalse h => isFalse (by simp [h])
        | isTrue h3 => isTrue (by rw [h1, h2, h3])
  | .elem _ _ _, .comment _ => isFalse (by simp)
  | .comment _, .elem _ _ _ => isFalse (by simp)
  | .comment s, .comment s' =>
    match String.decEq s s' with
    | isFalse h => isFalse (by simp [h])
    | isTrue h => isTrue (by rw [h])

/-- Decidable equality of lists of XML trees. -/
def XML.decEqList : (a b : List XML) → Decidable (a = b)
  | [], [] => isTrue rfl
  | [], _ :: _ => isFalse (by simp)
  | _ :: _, [] => isFalse (by simp)
  | x :: xs, y :: ys =>
    match XML.decEq x y with
    | isFalse h => isFalse (by simp [h])
    | isTrue h1 =>
      match XML.decEqList xs ys with
      | isFalse h => isFalse (by simp [h])
      | isTrue h2 => isTrue (by rw [h1, h2])

end

instance : DecidableEq XML := XML.decEq

/-- Find the first child element with the given tag, skipping comments
(tinyxml2 `FirstChildElement(tag)`); returns its attributes and children. -/
def XML.findChild (x : XML) (tag : String) : Option (List (String × String) × List XML) :=
  match x with
  | .comment _ => none
  | .elem _ _ cs => go cs
where
  go : List XML → Option (List (String × String) × List XML)
    | [] => none
    | .elem t a c :: rest => if t = tag then some (a, c) else go rest
    | .comment _ :: rest => go rest

mutual

/-- Modelled from the spec: `RecursivelyCreateXml` (XML_utilities), the
encode step for one node — element tag = node `type_name`, attributes = its
parameter values, nested elements = the children in order (spec section
4.3, Encode step 2). -/
def encodeNode : TreeNode → XML
  | .mk n p c => .elem n p (encodeChildren c)

/-- Encode a list of children in document order. -/
def encodeChildren : List TreeNode → List XML
  | [] => []
  | t :: ts => encodeNode t :: encodeChildren ts

end

mutual

/-- `true` when no parameter of the node (or of a descendant) is labelled
"ID"; a parameter so labelled would be read back as a model reference by
the decoder. -/
def noIDParams : TreeNode → Bool
  | .mk _ p c => p.all (fun a => a.1 ≠ "ID") && noIDParamsList c

/-- `noIDParams` on every node of a list. -/
def noIDParamsList : List TreeNode → Bool
  | [] => true
  | t :: ts => noIDParams t && noIDParamsList ts

end

/-- Modelled from the spec: parsing the `Parameter` children of one
`TreeNodesModel` entry — each must carry `label` and `type` attributes,
otherwise the parse aborts with a malformed-parameter error (spec section
4.3, Decode steps 1 and 3).  Comments are skipped. -/
def parseParamElems : List XML → Except String (List (String × String))
  | [] => .ok []
  | .comment _ :: rest => parseParamElems rest
  | .elem tag attrs _ :: rest =>
    if tag = "Parameter" then
      match attrs.lookup "label", attrs.lookup "type" with
      | some l, some ty => do
          let ps ← parseParamElems rest
          .ok ((l, ty) :: ps)
      | _, _ => .error "malformed Parameter element: missing label or type attribute"
    else .error ("unexpected element inside a TreeNodesModel entry: " ++ tag)

/-- Modelled from the spec: parsing the entries of the `TreeNodesModel`
element — each entry's element name is the category tag, it carries an `ID`
attribute and zero or more `Parameter` children (spec section 4.3, Decode
step 1).  Comments are skipped; an unknown category or a missing `ID`
aborts. -/
def parseModelEntries : List XML → Except String TreeNodesModel
  | [] => .ok []
  | .comment _ :: rest => parseModelEntries rest
  | .elem tag attrs children :: rest =>
    match nodeTypeFromStr tag with
    | none => .error ("unknown node category in TreeNodesModel: " ++ tag)
    | some nt =>
      match attrs.lookup "ID" with
      | none => .error "TreeNodesModel entry without an ID attribute"
      | some id => do
          let ps ← parseParamElems children
          let tail ← parseModelEntries rest
          .ok ((id, ⟨nt, ps⟩) :: tail)

/-- Modelled from the spec: `ReadTreeNodesModel` (XML_utilities) — parse the
`TreeNodesModel` section of the document into the model mapping, replacing
it wholesale (spec sections 3 and 4.3, Decode step 1).  All-or-nothing: any
error aborts the whole parse.  A document without a `TreeNodesModel`
element yields the empty mapping. -/
def ReadTreeNodesModel (root : XML) : Except String TreeNodesModel :=
  match root.findChild "TreeNodesModel" with
  | none =>
    match root with
    | .comment _ => .error "missing root element"
    | .elem _ _ _ => .ok []
  | some (_, entries) => parseModelEntries entries

mutual

/-- Modelled from the spec: the recursive node builder of
`CreateTreeInSceneFromXML` (XML_utilities) — each XML element maps to one
node whose `type_name` is the element's tag or its `ID`-referenced model
entry; a reference to an unregistered `ID` aborts the parse (spec section
4.3, Decode steps 2 and 3).  The remaining attributes become the parameter
values, nested elements become the children in document order. -/
def buildNode (model : TreeNodesModel) : XML → Except String TreeNode
  | .comment _ => .error "unexpected comment in BehaviorTree"
  | .elem tag attrs children =>
    match attrs.lookup "ID" with
    | some id =>
      match model.lookup id with
      | none => .error ("reference to an unregistered ID: " ++ id)
      | some _ => do
          let cs ← buildChildren model children
          .ok (.mk id (attrs.filter (fun a => a.1 ≠ "ID")) cs)
    | none => do
        let cs ← buildChildren model children
        .ok (.mk tag attrs cs)

/-- Build a list of sibling nodes, skipping comment nodes (tinyxml2 sibling
iteration is over elements). -/
def buildChildren (model : TreeNodesModel) : List XML → Except String (List TreeNode)
  | [] => .ok []
  | .comment _ :: rest => buildChildren model rest
  | .elem tag attrs children :: rest => do
      let t ← buildNode model (.elem tag attrs children)
      let ts ← buildChildren model rest
      .ok (t :: ts)

end

/-- Modelled from the spec: `CreateTreeInSceneFromXML` (XML_utilities) —
given the `BehaviorTree` element (or `none` when the document has no such
element, which aborts with a missing-root-element error), build the nodes
recursively under a fresh Root node (spec section 4.3, Decode step 2). -/
def CreateTreeFromXML (behavior_tree : Option (List (String × String) × List XML))
    (model : TreeNodesModel) : Except String TreeNode :=
  match behavior_tree with
  | none => .error "missing BehaviorTree element"
  | some (_, children) => do
      let cs ← buildChildren model children
      .ok (.mk "Root" [] cs)

/-- Modelled from the spec: the whole decode pipeline (spec section 4.3,
Decode) — parse the `TreeNodesModel` section first, then locate the
`BehaviorTree` element and build the document tree against that model. -/
def decodeXML (x : XML) : Except String (TreeNode × TreeNodesModel) := do
  let model ← ReadTreeNodesModel x
  let tree ← CreateTreeFromXML (x.findChild "BehaviorTree") model
  .ok (tree, model)

/-- The state of one editor scene (one `GraphicContainer` tab): its
document forest and its orientation.  Node positions are a pure function of
these two (spec section 4.6), so they are not carried separately. -/
structure Scene where
  forest : List TreeNode
  layout : PortLayout
deriving DecidableEq, Repr

/-- A scene snapshot (`QByteArray` produced by `scene->saveToMemory()`).
Modelled as the scene value itself: the serialization is faithful and
injective, so byte equality is value equality. -/
abbrev Snapshot := Scene

/-- Modelled from the spec: `FlowScene::saveToMemory` — a faithful
serialization of the full scene state, used only for undo/redo. -/
def saveToMemory (s : Scene) : Snapshot := s

/-- Modelled from the spec: `FlowScene::loadFromMemory` — exact restoration
of the serialized scene. -/
def loadFromMemory (b : Snapshot) : Scene := b

/-- Modelled from the spec: `findRoots(scene)` — all nodes with no parent
(spec section 4.2, `roots()`); in the forest representation these are the
top-level trees. -/
def findRoots (s : Scene) : List TreeNode := s.forest

/-- Modelled from the spec: `getChildren(scene, node)` — the ordered
children of a node (spec section 4.2, `children_of`). -/
def getChildren (n : TreeNode) : List TreeNode := n.children

/-- The separator comment emitted between the sections of a saved
document. -/
def separatorComment : XML := .comment "-----------------------------------"

/-- One `TreeNodesModel` entry as emitted by `on_actionSave_triggered`
(lines 286-306): an element named after the category tag, with the `ID`
attribute and one `Parameter` child per declared parameter. -/
def modelEntryToXML (entry : String × NodeModel) : XML :=
  .elem (toStr entry.2.node_type) [("ID", entry.1)]
    (entry.2.params.map (fun p => .elem "Parameter" [("label", p.1), ("type", p.2)] []))

/-- The validity check and XML document construction of
`on_actionSave_triggered` (lines 245-308): `none` when the scene does not
have exactly one root of the Root type with exactly one child (the save is
aborted before anything is built or written), otherwise the document that
is printed to the chosen file. -/
def saveDocument (scene : Scene) (tree_nodes_model : TreeNodesModel) : Option XML :=
  match findRoots scene with
  | [r] =>
    if r.type_name = "Root" then
      match getChildren r with
      | [c] =>
        some (.elem "root" []
          [separatorComment,
           .elem "BehaviorTree" [] [encodeNode c],
           separatorComment,
           .elem "TreeNodesModel" [] (tree_nodes_model.map modelEntryToXML),
           separatorComment])
      | _ => none
    else none
  | _ => none

/-- The stricter validity condition checked by `on_actionSave_triggered`
(lines 247-261) before building anything: exactly one root, of the Root
type, with exactly one child. -/
def strictSaveCheck (scene : Scene) : Bool :=
  match findRoots scene with
  | [r] => r.type_name = "Root" && (getChildren r).length = 1
  | _ => false

/-- The persistent editor state of `MainWindow` that the claims are about:
mode, the open tabs (the current tab first; the constructor creates a
single tab), the `TreeNodesModel`, the two snapshot stacks (top of the
stack first, i.e. the head is `back()`), the current snapshot, the
re-entrancy flag `_undo_enabled`, the global orientation, the enabled
state of the save action (set by `onSceneChanged`), the editing lock, and
the log of error messages shown to the user (most recent first). -/
structure EditorState where
  current_mode : GraphicMode
  tabs : List Scene
  tree_nodes_model : TreeNodesModel
  undo_stack : List Snapshot
  redo_stack : List Snapshot
  current_state : Snapshot
  undo_enabled : Bool
  current_layout : PortLayout
  save_enabled : Bool
  editing_locked : Bool
  messages : List String
deriving DecidableEq, Repr

/-- Replace the scene of the current tab (a structural edit arriving from
the canvas); no tab means no current scene (never reached by the claims:
the constructor creates one tab). -/
def setCurrentScene (s : EditorState) (t : Scene) : EditorState :=
  match s.tabs with
  | [] => s
  | _ :: rest => { s with tabs := t :: rest }

/-- `MainWindow::onPushUndo` (lines 447-469): when `_undo_enabled`, take a
fresh snapshot of the current scene; push the previous `_current_state`
onto `_undo_stack` and clear `_redo_stack` when the stack is empty, or when
the fresh snapshot differs from `_current_state` and the top of the stack
(`back()`) differs from `_current_state`; in every case set
`_current_state` to the fresh snapshot. -/
def onPushUndo (s : EditorState) : EditorState :=
  if s.undo_enabled then
    match s.tabs with
    | [] => s
    | t :: _ =>
      let state := saveToMemory t
      let s1 :=
        if s.undo_stack = [] ∨ (state ≠ s.current_state ∧ s.undo_stack.head? ≠ some s.current_state) then
          { s with undo_stack := s.current_state :: s.undo_stack, redo_stack := [] }
        else s
      { s1 with current_state := state }
  else s

/-- `MainWindow::onSceneChanged` (lines 350-374): recompute the validity
indicator; the save action (and the layout/reorder buttons, driven by the
same boolean) is enabled exactly when the scene has exactly one root. -/
def onSceneChanged (s : EditorState) : EditorState :=
  match s.tabs with
  | [] => s
  | t :: _ => { s with save_enabled := decide ((findRoots t).length = 1) }

/-- `MainWindow::refreshNodesLayout` (lines 586-621): relayout every open
tab whose layout differs from the new one, remember the new global layout,
and invoke `onPushUndo` when at least one tab was refreshed. -/
def refreshNodesLayout (s : EditorState) (new_layout : PortLayout) : EditorState :=
  let new_tabs := s.tabs.map (fun t => if t.layout ≠ new_layout then { t with layout := new_layout } else t)
  let refreshed := s.tabs.any (fun t => t.layout ≠ new_layout)
  let s1 := { s with tabs := new_tabs, current_layout := new_layout }
  if refreshed then onPushUndo s1 else s1

/-- `MainWindow::loadSceneFromYAML` (lines 487-499): with `_undo_enabled`
switched off, clear the current scene and rebuild it from the snapshot,
refresh the layout to the restored scene's layout, switch `_undo_enabled`
back on, then recompute the validity indicator. -/
def loadSceneFromYAML (s : EditorState) (state : Snapshot) : EditorState :=
  match s.tabs with
  | [] => s
  | _ :: rest =>
    let s1 := { s with undo_enabled := false, tabs := loadFromMemory state :: rest }
    let s2 := refreshNodesLayout s1 (loadFromMemory state).layout
    let s3 := { s2 with undo_enabled := true }
    onSceneChanged s3

/-- `MainWindow::onUndoInvoked` (lines 471-485): a no-op outside EDITOR
mode; otherwise, when the undo stack is non-empty, push `_current_state`
onto the redo stack, pop the undo stack into `_current_state` and restore
the scene from it. -/
def onUndoInvoked (s : EditorState) : EditorState :=
  if s.current_mode = GraphicMode.EDITOR then
    match s.undo_stack with
    | [] => s
    | top :: rest =>
      let s1 := { s with redo_stack := s.current_state :: s.redo_stack,
                         current_state := top, undo_stack := rest }
      loadSceneFromYAML s1 top
  else s

/-- `MainWindow::onRedoInvoked` (lines 501-515): symmetric to undo. -/
def onRedoInvoked (s : EditorState) : EditorState :=
  if s.current_mode = GraphicMode.EDITOR then
    match s.redo_stack with
    | [] => s
    | top :: rest =>
      let s1 := { s with undo_stack := s.current_state :: s.undo_stack,
                         current_state := top, redo_stack := rest }
      loadSceneFromYAML s1 top
  else s

/-- `MainWindow::on_loadBehaviorTree` (lines 527-546): clear the current
scene, build the delivered tree into it, recompute the validity indicator,
auto-arrange (derived data here), lock editing outside EDITOR mode, clear
both stacks, then invoke `onPushUndo`. -/
def on_loadBehaviorTree (s : EditorState) (tree : List TreeNode) : EditorState :=
  match s.tabs with
  | [] => s
  | t :: rest =>
    let s1 := { s with tabs := { t with forest := tree } :: rest }
    let s2 := onSceneChanged s1
    let s3 := { s2 with editing_locked := decide (s.current_mode ≠ GraphicMode.EDITOR) }
    let s4 := { s3 with undo_stack := [], redo_stack := [] }
    onPushUndo s4

/-- `MainWindow::on_toolButtonLayout_clicked` (lines 623-632): toggle the
global orientation via `refreshNodesLayout`. -/
def on_toolButtonLayout_clicked (s : EditorState) : EditorState :=
  if s.current_layout = PortLayout.Horizontal then
    refreshNodesLayout s PortLayout.Vertical
  else
    refreshNodesLayout s PortLayout.Horizontal

/-- The user-facing warning text of `loadFromXML` (lines 187-189); the
fixed prefix makes the reported message non-empty whatever the detail. -/
def loadErrorMessage (details : String) : String :=
  "It was not possible to parse the file. Error: " ++ details

/-- `MainWindow::loadFromXML` (lines 146-206).  The argument is the result
of the tinyxml2 parse of the raw text (`none` = syntactic XML error: the
body is skipped entirely and only the final `lockEditing` runs).  On a
parse of the model section the `TreeNodesModel` is replaced; a failure in
it is caught by the outer handler which shows the message and returns
early.  Then the scene is cleared and the tree is built; on failure the
scene is restored from the snapshot saved just before and a warning is
shown; on success the validity indicator is recomputed and a snapshot push
is invoked.  Finally editing is locked outside EDITOR mode. -/
def loadFromXML (s : EditorState) (parsed : Option XML) : EditorState :=
  match parsed with
  | none => { s with editing_locked := decide (s.current_mode ≠ GraphicMode.EDITOR) }
  | some xml =>
    match ReadTreeNodesModel xml with
    | .error msg => { s with messages := msg :: s.messages }
    | .ok new_model =>
      match s.tabs with
      | [] => s
      | t :: rest =>
        let s1 := { s with tree_nodes_model := new_model }
        let saved_state := s1.current_state
        match CreateTreeFromXML (xml.findChild "BehaviorTree") new_model with
        | .error msg =>
          let s2 := { s1 with tabs := { t with forest := [] } :: rest }
          let s3 := loadSceneFromYAML s2 saved_state
          { s3 with messages := loadErrorMessage msg :: s3.messages,
                    editing_locked := decide (s.current_mode ≠ GraphicMode.EDITOR) }
        | .ok root_tree =>
          let s2 := { s1 with tabs := { t with forest := [root_tree] } :: rest }
          let s3 := onSceneChanged s2
          let s4 := onPushUndo s3
          { s4 with editing_locked := decide (s.current_mode ≠ GraphicMode.EDITOR) }

/-- One structural edit followed by its snapshot push: the canvas emits
`undoableChange`, which is connected (lines 129-133, in this order) to
`onPushUndo` and then `onSceneChanged`. -/
def applyEditAndPush (s : EditorState) (v : Scene) : EditorState :=
  onSceneChanged (onPushUndo (setCurrentScene s v))

/-- Iterate an editor operation a given number of times (repeated undo or
redo shortcut presses). -/
def iterateOp (f : EditorState → EditorState) : Nat → EditorState → EditorState
  | 0, s => s
  | n + 1, s => iterateOp f n (f s)

/-- The last scene of `c :: l` (the document state after the last of a
sequence of edits). -/
def lastD (c : Scene) : List Scene → Scene
  | [] => c
  | v :: l => lastD v l

/-- The snapshots pushed while walking `c :: l` from the front: undoing
through states `c, v1, ..., vn` stacks `vn-1, ..., v1, c` (top first), and
a sequence of pushes starting at `c` stacks the same list. -/
def histPush (c : Scene) : List Scene → List Scene
  | [] => []
  | v :: l => histPush v l ++ [c]

/-- A baseline editor session around a single freshly loaded scene: one
tab, empty history, current snapshot in sync with the scene, EDITOR mode. -/
def initialEditorState (t0 : Scene) (m : TreeNodesModel) : EditorState :=
  { current_mode := GraphicMode.EDITOR, tabs := [t0], tree_nodes_model := m,
    undo_stack := [], redo_stack := [], current_state := saveToMemory t0,
    undo_enabled := true, current_layout := t0.layout,
    save_enabled := decide (t0.forest.length = 1), editing_locked := false,
    messages := [] }

instance {ε α : Type} [DecidableEq ε] [DecidableEq α] : DecidableEq (Except ε α) := fun a b =>
  match a, b with
  | .ok x, .ok y =>
    match decEq x y with
    | isTrue h => isTrue (by rw [h])
    | isFalse h => isFalse (by simp [h])
  | .ok _, .error _ => isFalse (by simp)
  | .error _, .ok _ => isFalse (by simp)
  | .error x, .error y =>
    match decEq x y with
    | isTrue h => isTrue (by rw [h])
    | isFalse h => isFalse (by simp [h])

attribute [ext] EditorState

/-- A concrete leaf action node used by the example inputs. -/
def exampleAction : TreeNode := .mk "SayHello" [("message", "hello")] []

/-- A concrete valid scene: a single Root node with a single child. -/
def exampleScene : Scene := ⟨[.mk "Root" [] [exampleAction]], .Horizontal⟩

/-- A concrete model declaring the example action. -/
def exampleModel : TreeNodesModel := [("SayHello", ⟨.Action, [("message", "string")]⟩)]

/-- A concrete scene with two roots (invalid). -/
def sceneTwoRoots : Scene := ⟨[exampleAction, exampleAction], .Horizontal⟩

/-- A concrete scene whose single root is not of the Root type. -/
def sceneActionRoot : Scene := ⟨[.mk "Action" [] []], .Horizontal⟩

/-- A concrete baseline session around the valid example scene. -/
def exampleState : EditorState := initialEditorState exampleScene exampleModel

/-- A concrete session around an empty scene with empty history; its fresh
snapshot equals `current_state`. -/
def emptySceneState : EditorState := initialEditorState ⟨[], .Horizontal⟩ []

/-- A concrete session whose undo-stack top equals `current_state` (the
state left behind by delivering the same external tree twice). -/
def stackTopEqualsCurrentState : EditorState :=
  { exampleState with undo_stack := [exampleScene] }

/-- A concrete session in MONITOR mode with non-empty history stacks. -/
def monitorState : EditorState :=
  { exampleState with
      current_mode := GraphicMode.MONITOR
      undo_stack := [sceneTwoRoots]
      redo_stack := [sceneActionRoot] }

/-- A concrete XML document whose `TreeNodesModel` section parses (adding
an entry) but which has no `BehaviorTree` element, so building the tree
fails. -/
def xmlModelOnlyNoTree : XML :=
  .elem "root" [] [.elem "TreeNodesModel" [] [.elem "Action" [("ID", "Foo")] []]]

/-- A concrete session around the single-Action-root scene. -/
def actionRootState : EditorState := initialEditorState sceneActionRoot []

/-- A first concrete edit of the example scene: a second child appended
under the root. -/
def exampleEditA : Scene := ⟨[.mk "Root" [] [exampleAction, exampleAction]], .Horizontal⟩

/-- A second concrete edit: both children removed. -/
def exampleEditB : Scene := ⟨[.mk "Root" [] []], .Horizontal⟩

/-- The orientation selected by `on_toolButtonLayout_clicked`: the other
one. -/
def toggledLayout : PortLayout → PortLayout
  | .Horizontal => .Vertical
  | .Vertical => .Horizontal

/-- Structural induction for `TreeNode` with the membership-based
hypothesis for the children list. -/
def TreeNode.inductionOn {P : TreeNode → Prop}
    (h : ∀ n p c, (∀ t, t ∈ c → P t) → P (TreeNode.mk n p c)) : ∀ t, P t
  | .mk n p c => h n p c (fun t ht => TreeNode.inductionOn h t)
termination_by t => sizeOf t
decreasing_by
  have hlt := List.sizeOf_lt_of_mem ht
  simp only [TreeNode.mk.sizeOf_spec]
  omega

/-- `onPushUndo` is the identity while `_undo_enabled` is off. -/
theorem onPushUndo_disabled (s : EditorState) (h : s.undo_enabled = false) :
    onPushUndo s = s := by
  simp [onPushUndo, h]

/-- With `_undo_enabled` off, `refreshNodesLayout` only relays out the tabs
and records the new global layout; the conditional `onPushUndo` is inert. -/
theorem refreshNodesLayout_disabled (s : EditorState) (nl : PortLayout)
    (h : s.undo_enabled = false) :
    refreshNodesLayout s nl =
      { s with tabs := s.tabs.map (fun t => if t.layout ≠ nl then { t with layout := nl } else t),
               current_layout := nl } := by
  unfold refreshNodesLayout
  dsimp only
  split
  · exact onPushUndo_disabled _ (by simp [h])
  · rfl

/-- `onSceneChanged` only touches the validity indicator. -/
theorem onSceneChanged_fields (s : EditorState) :
    (onSceneChanged s).undo_stack = s.undo_stack ∧
    (onSceneChanged s).redo_stack = s.redo_stack ∧
    (onSceneChanged s).current_state = s.current_state ∧
    (onSceneChanged s).tabs = s.tabs ∧
    (onSceneChanged s).current_mode = s.current_mode ∧
    (onSceneChanged s).undo_enabled = s.undo_enabled ∧
    (onSceneChanged s).tree_nodes_model = s.tree_nodes_model ∧
    (onSceneChanged s).messages = s.messages ∧
    (onSceneChanged s).current_layout = s.current_layout := by
  cases h : s.tabs <;> simp [onSceneChanged, h]

/-- The full effect of `loadSceneFromYAML` when at least one tab is open:
the current tab becomes the restored scene, the other tabs are relaid out
to the restored scene's layout, the global layout follows it, and the
validity indicator is recomputed. -/
theorem loadSceneFromYAML_eq (s : EditorState) (b : Snapshot) (t : Scene) (rest : List Scene)
    (h : s.tabs = t :: rest) :
    loadSceneFromYAML s b =
      onSceneChanged { s with
        tabs := b :: rest.map (fun x => if x.layout ≠ b.layout then { x with layout := b.layout } else x)
        current_layout := b.layout
        undo_enabled := true } := by
  unfold loadSceneFromYAML
  rw [h]
  dsimp only
  rw [refreshNodesLayout_disabled _ _ rfl]
  simp [loadFromMemory]

/-- The effect of `loadSceneFromYAML` in a single-tab session. -/
theorem loadSceneFromYAML_single (s : EditorState) (b : Snapshot) (t : Scene)
    (h : s.tabs = [t]) :
    loadSceneFromYAML s b =
      { s with tabs := [b], current_layout := b.layout, undo_enabled := true,
               save_enabled := decide (b.forest.length = 1) } := by
  rw [loadSceneFromYAML_eq s b t [] h]
  simp [onSceneChanged, findRoots]

/-- C9: while a snapshot restore is in progress the automatic snapshot-push
is suppressed — `onPushUndo` on a state with `_undo_enabled` off is the
identity — and consequently a whole `loadSceneFromYAML` restore (which runs
`refreshNodesLayout` and hence a conditional `onPushUndo` internally) adds
nothing to either stack and never overwrites `current_state`. -/
theorem c9_restore_never_pushes (s : EditorState) (b : Snapshot) :
    onPushUndo { s with undo_enabled := false } = { s with undo_enabled := false } ∧
    (loadSceneFromYAML s b).undo_stack = s.undo_stack ∧
    (loadSceneFromYAML s b).redo_stack = s.redo_stack ∧
    (loadSceneFromYAML s b).current_state = s.current_state := by
  refine ⟨onPushUndo_disabled _ rfl, ?_, ?_, ?_⟩ <;>
    cases h : s.tabs with
    | nil => simp [loadSceneFromYAML, h]
    | cons t rest =>
        rw [loadSceneFromYAML_eq s b t rest h]
        simp [(onSceneChanged_fields _).1, (onSceneChanged_fields _).2.1,
              (onSceneChanged_fields _).2.2.1]

/-- C10: outside EDITOR mode both undo and redo return before touching
anything: the whole editor state is unchanged. -/
theorem c10_undo_redo_locked_outside_editor (s : EditorState)
    (h : s.current_mode ≠ GraphicMode.EDITOR) :
    onUndoInvoked s = s ∧ onRedoInvoked s = s := by
  constructor <;> simp [onUndoInvoked, onRedoInvoked, h]

/-- C10 witness: a MONITOR-mode session with non-empty history stacks. -/
theorem c10_witness :
    monitorState.current_mode ≠ GraphicMode.EDITOR ∧
    monitorState.undo_stack ≠ [] ∧ monitorState.redo_stack ≠ [] ∧
    (onUndoInvoked monitorState = monitorState ∧ onRedoInvoked monitorState = monitorState) :=
  ⟨by decide, by decide, by decide, c10_undo_redo_locked_outside_editor monitorState (by decide)⟩

/-- C5: for a scene with zero roots, two or more roots, or a single root
without exactly one child, `on_actionSave_triggered` aborts before building
or writing anything: no XML document is produced. -/
theorem c5_invalid_tree_never_saved (t : Scene) (m : TreeNodesModel)
    (h : (findRoots t).length ≠ 1 ∨ ∃ r, findRoots t = [r] ∧ (getChildren r).length ≠ 1) :
    saveDocument t m = none := by
  unfold saveDocument
  rcases h with h | ⟨r, hr, hc⟩
  · cases hfr : findRoots t with
    | nil => rfl
    | cons a l =>
      cases l with
      | nil => exact absurd (by simp [hfr]) h
      | cons b l2 => rfl
  · rw [hr]
    by_cases hty : r.type_name = "Root"
    · simp only [hty, if_true]
      cases hgc : getChildren r with
      | nil => rfl
      | cons a l =>
        cases l with
        | nil => exact absurd (by simp [hgc]) hc
        | cons b l2 => rfl
    · simp only [hty, if_false]

/-- C5 witness: the two-root example scene is rejected by the save path. -/
theorem c5_witness :
    (findRoots sceneTwoRoots).length ≠ 1 ∧ saveDocument sceneTwoRoots exampleModel = none :=
  ⟨by decide, c5_invalid_tree_never_saved sceneTwoRoots exampleModel (Or.inl (by decide))⟩

/-- The effect of `onPushUndo` when enabled with a current tab: push the
previous `_current_state` (clearing redo) exactly when the stack is empty
or the fresh snapshot differs from `_current_state` while the stack top
also differs from `_current_state`; in both cases `_current_state` becomes
the fresh snapshot. -/
theorem onPushUndo_eq (s : EditorState) (t : Scene) (rest : List Scene)
    (htabs : s.tabs = t :: rest) (hen : s.undo_enabled = true) :
    onPushUndo s =
      if s.undo_stack = [] ∨ (saveToMemory t ≠ s.current_state ∧ s.undo_stack.head? ≠ some s.current_state)
      then { s with undo_stack := s.current_state :: s.undo_stack, redo_stack := [],
                    current_state := saveToMemory t }
      else { s with current_state := saveToMemory t } := by
  obtain ⟨mode, tabs, m, u, r, cur, en, lay, sv, lk, msg⟩ := s
  dsimp only at htabs hen ⊢
  subst htabs
  subst hen
  unfold onPushUndo
  dsimp only
  split
  · by_cases hc : u = [] ∨ (saveToMemory t ≠ cur ∧ u.head? ≠ some cur)
    · simp only [if_pos hc]
    · simp only [if_neg hc]
  · next h => exact absurd rfl h

/-- Two consecutive pushes with no intervening mutation are one: the
second `onPushUndo` finds the fresh snapshot equal to `_current_state` and
a non-empty stack, so it changes nothing. -/
theorem onPushUndo_idem (s : EditorState) : onPushUndo (onPushUndo s) = onPushUndo s := by
  cases hen : s.undo_enabled with
  | false => rw [onPushUndo_disabled s hen, onPushUndo_disabled s hen]
  | true =>
    cases htabs : s.tabs with
    | nil =>
      have h : onPushUndo s = s := by simp [onPushUndo, htabs]
      rw [h, h]
    | cons t rest =>
      rw [onPushUndo_eq s t rest htabs hen]
      by_cases hc : s.undo_stack = [] ∨ (saveToMemory t ≠ s.current_state ∧ s.undo_stack.head? ≠ some s.current_state)
      · rw [if_pos hc]
        rw [onPushUndo_eq _ t rest (by simp [htabs]) (by simp [hen])]
        rw [if_neg (by simp)]
      · rw [if_neg hc]
        rw [onPushUndo_eq _ t rest (by simp [htabs]) (by simp [hen])]
        rw [if_neg (by simp; intro h; exact absurd (Or.inl h) hc)]

/-- C4 counterexample: in the baseline empty-scene session the fresh
snapshot equals `current_state` (nothing was mutated) and the undo stack is
empty, yet `onPushUndo` pushes an entry — the claimed "pushes exactly when
the fresh snapshot differs from `current_state` and from the top of
`undo_stack`" is false at this input. -/
theorem c4_counterexample :
    saveToMemory (Scene.mk [] PortLayout.Horizontal) = emptySceneState.current_state ∧
    emptySceneState.tabs = [Scene.mk [] PortLayout.Horizontal] ∧
    emptySceneState.undo_stack = [] ∧
    (onPushUndo emptySceneState).undo_stack = [emptySceneState.current_state] := by
  decide

/-- C4 (amended): `onPushUndo` pushes the previous `current_state` onto
`undo_stack` and clears `redo_stack` exactly when `undo_stack` is empty,
or the fresh snapshot differs from `current_state` and the top of
`undo_stack` also differs from `current_state`; in every case
`current_state` becomes the fresh snapshot, and a second push with no
intervening mutation changes nothing (so the undo-stack size is unchanged
by a duplicate push). -/
theorem c4_push_if_changed (s : EditorState) (t : Scene) (rest : List Scene)
    (htabs : s.tabs = t :: rest) (hen : s.undo_enabled = true) :
    (onPushUndo s).current_state = saveToMemory t ∧
    (if s.undo_stack = [] ∨ (saveToMemory t ≠ s.current_state ∧ s.undo_stack.head? ≠ some s.current_state)
      then (onPushUndo s).undo_stack = s.current_state :: s.undo_stack ∧ (onPushUndo s).redo_stack = []
      else (onPushUndo s).undo_stack = s.undo_stack ∧ (onPushUndo s).redo_stack = s.redo_stack) ∧
    onPushUndo (onPushUndo s) = onPushUndo s := by
  refine ⟨?_, ?_, onPushUndo_idem s⟩
  · rw [onPushUndo_eq s t rest htabs hen]
    by_cases hc : s.undo_stack = [] ∨ (saveToMemory t ≠ s.current_state ∧ s.undo_stack.head? ≠ some s.current_state)
    · rw [if_pos hc]
    · rw [if_neg hc]
  · by_cases hc : s.undo_stack = [] ∨ (saveToMemory t ≠ s.current_state ∧ s.undo_stack.head? ≠ some s.current_state)
    · rw [if_pos hc, onPushUndo_eq s t rest htabs hen, if_pos hc]
      exact ⟨rfl, rfl⟩
    · rw [if_neg hc, onPushUndo_eq s t rest htabs hen, if_neg hc]
      exact ⟨rfl, rfl⟩

/-- C4 witness: the amended characterization applied to the baseline
example session. -/
theorem c4_witness :
    (onPushUndo exampleState).current_state = saveToMemory exampleScene ∧
    onPushUndo (onPushUndo exampleState) = onPushUndo exampleState :=
  ⟨(c4_push_if_changed exampleState exampleScene [] rfl rfl).1,
   (c4_push_if_changed exampleState exampleScene [] rfl rfl).2.2⟩

/-- C6 counterexample: after an external tree delivery the undo stack is
not empty — `on_loadBehaviorTree` clears both stacks but then invokes
`onPushUndo`, which (stack now empty) pushes the pre-delivery
`current_state`. -/
theorem c6_counterexample :
    (on_loadBehaviorTree exampleState [exampleAction]).undo_stack ≠ [] := by
  decide

/-- C6 (amended): on a `tree_received` delivery the current scene is
replaced by the delivered document, the redo stack ends empty and
`current_state` ends as the snapshot of the adopted document, and editing
is locked outside EDITOR mode — but the undo stack ends with exactly one
entry, the pre-delivery `current_state`, rather than empty. -/
theorem c6_load_behavior_tree (s : EditorState) (tree : List TreeNode) (t : Scene)
    (rest : List Scene) (htabs : s.tabs = t :: rest) (hen : s.undo_enabled = true) :
    (on_loadBehaviorTree s tree).tabs = { t with forest := tree } :: rest ∧
    (on_loadBehaviorTree s tree).redo_stack = [] ∧
    (on_loadBehaviorTree s tree).undo_stack = [s.current_state] ∧
    (on_loadBehaviorTree s tree).current_state = saveToMemory { t with forest := tree } ∧
    (on_loadBehaviorTree s tree).editing_locked = decide (s.current_mode ≠ GraphicMode.EDITOR) := by
  obtain ⟨mode, tabs, m, u, r, cur, en, lay, sv, lk, msg⟩ := s
  dsimp only at htabs hen ⊢
  subst htabs
  subst hen
  unfold on_loadBehaviorTree
  dsimp only
  simp [onSceneChanged, onPushUndo]

/-- C6 witness: the amended statement at the baseline example session. -/
theorem c6_witness :
    (on_loadBehaviorTree exampleState [exampleAction]).redo_stack = [] ∧
    (on_loadBehaviorTree exampleState [exampleAction]).undo_stack = [exampleState.current_state] :=
  ⟨(c6_load_behavior_tree exampleState [exampleAction] exampleScene [] rfl rfl).2.1,
   (c6_load_behavior_tree exampleState [exampleAction] exampleScene [] rfl rfl).2.2.1⟩

/-- C7 counterexample: a scene whose single root is an Action node (not of
the Root type, no children) makes `onSceneChanged` enable the save action,
although the stricter Root-with-exactly-one-child condition fails. -/
theorem c7_counterexample :
    (onSceneChanged actionRootState).save_enabled = true ∧
    strictSaveCheck sceneActionRoot = false := by
  decide

/-- C7 (amended): after a structural change (`onSceneChanged`, also run at
the end of every load/undo/redo restore) the save action is enabled exactly
when the scene has exactly one root — of any type and with any number of
children; the stricter Root-with-exactly-one-child condition is only
enforced when the save is executed (`saveDocument`). -/
theorem c7_save_enabled_single_root (s : EditorState) (t : Scene) (rest : List Scene)
    (b : Snapshot) (m : TreeNodesModel) (htabs : s.tabs = t :: rest) :
    (onSceneChanged s).save_enabled = decide ((findRoots t).length = 1) ∧
    (loadSceneFromYAML s b).save_enabled = decide ((findRoots (loadFromMemory b)).length = 1) ∧
    (strictSaveCheck t = false → saveDocument t m = none) := by
  refine ⟨?_, ?_, ?_⟩
  · simp [onSceneChanged, htabs]
  · rw [loadSceneFromYAML_eq s b t rest htabs]
    simp [onSceneChanged, findRoots, loadFromMemory]
  · intro hstrict
    unfold saveDocument
    unfold strictSaveCheck at hstrict
    cases hfr : findRoots t with
    | nil => rfl
    | cons a l =>
      cases l with
      | nil =>
        rw [hfr] at hstrict
        by_cases hty : a.type_name = "Root"
        · simp only [hty, if_true]
          cases hgc : getChildren a with
          | nil => rfl
          | cons b2 l2 =>
            cases l2 with
            | nil => simp [hty, hgc] at hstrict
            | cons b3 l3 => rfl
        · simp only [hty, if_false]
      | cons b2 l2 => rfl

/-- C7 witness: the amended statement at the baseline example session. -/
theorem c7_witness :
    (onSceneChanged exampleState).save_enabled = decide ((findRoots exampleScene).length = 1) ∧
    (strictSaveCheck sceneTwoRoots = false → saveDocument sceneTwoRoots exampleModel = none) :=
  ⟨(c7_save_enabled_single_root exampleState exampleScene [] exampleScene exampleModel rfl).1,
   (c7_save_enabled_single_root { exampleState with tabs := [sceneTwoRoots] } sceneTwoRoots []
      exampleScene exampleModel rfl).2.2⟩

/-- `onPushUndo` touches only the stacks and `current_state`. -/
theorem onPushUndo_fields (s : EditorState) :
    (onPushUndo s).tabs = s.tabs ∧
    (onPushUndo s).current_layout = s.current_layout ∧
    (onPushUndo s).current_mode = s.current_mode ∧
    (onPushUndo s).undo_enabled = s.undo_enabled ∧
    (onPushUndo s).tree_nodes_model = s.tree_nodes_model ∧
    (onPushUndo s).messages = s.messages ∧
    (onPushUndo s).editing_locked = s.editing_locked ∧
    (onPushUndo s).save_enabled = s.save_enabled := by
  by_cases hen : s.undo_enabled = true
  · cases htabs : s.tabs with
    | nil => simp [onPushUndo, hen, htabs]
    | cons t rest =>
      rw [onPushUndo_eq s t rest htabs hen]
      split <;> simp [htabs]
  · have hf : s.undo_enabled = false := by revert hen; cases s.undo_enabled <;> simp
    rw [onPushUndo_disabled s hf]
    exact ⟨rfl, rfl, rfl, rfl, rfl, rfl, rfl, rfl⟩

/-- The orientation toggle goes through `refreshNodesLayout` with the other
orientation. -/
theorem toolButtonLayout_eq (s : EditorState) :
    on_toolButtonLayout_clicked s = refreshNodesLayout s (toggledLayout s.current_layout) := by
  cases h : s.current_layout <;> simp [on_toolButtonLayout_clicked, toggledLayout, h]

/-- C8 counterexample: in a session whose undo-stack top equals
`current_state`, toggling the orientation does change the open document's
layout (the tabs change) but nothing is pushed: both stacks are unchanged —
the claimed "pushed as exactly one undoable edit if and only if at least
one document's layout actually changed" is false at this input. -/
theorem c8_counterexample :
    (on_toolButtonLayout_clicked stackTopEqualsCurrentState).tabs ≠ stackTopEqualsCurrentState.tabs ∧
    (on_toolButtonLayout_clicked stackTopEqualsCurrentState).undo_stack = stackTopEqualsCurrentState.undo_stack ∧
    (on_toolButtonLayout_clicked stackTopEqualsCurrentState).redo_stack = stackTopEqualsCurrentState.redo_stack := by
  decide

/-- C8 (amended): on an orientation toggle every open document whose layout
differs from the new orientation is relaid out and the new orientation is
recorded; when no document's layout changed the stacks and `current_state`
are untouched; when at least one changed, a single `onPushUndo` runs, which
pushes exactly one entry under its own condition (stack empty, or fresh
snapshot different from `current_state` and stack top different from
`current_state`) and otherwise pushes nothing. -/
theorem c8_layout_toggle (s : EditorState) (t : Scene) (rest : List Scene)
    (htabs : s.tabs = t :: rest) (hen : s.undo_enabled = true) :
    (on_toolButtonLayout_clicked s).tabs
      = s.tabs.map (fun x => if x.layout ≠ toggledLayout s.current_layout
          then { x with layout := toggledLayout s.current_layout } else x) ∧
    (on_toolButtonLayout_clicked s).current_layout = toggledLayout s.current_layout ∧
    ((∀ x ∈ s.tabs, x.layout = toggledLayout s.current_layout) →
       (on_toolButtonLayout_clicked s).undo_stack = s.undo_stack ∧
       (on_toolButtonLayout_clicked s).redo_stack = s.redo_stack ∧
       (on_toolButtonLayout_clicked s).current_state = s.current_state) ∧
    ((∃ x ∈ s.tabs, x.layout ≠ toggledLayout s.current_layout) →
       (if s.undo_stack = [] ∨
           (saveToMemory (if t.layout ≠ toggledLayout s.current_layout
              then { t with layout := toggledLayout s.current_layout } else t) ≠ s.current_state ∧
            s.undo_stack.head? ≠ some s.current_state)
        then (on_toolButtonLayout_clicked s).undo_stack = s.current_state :: s.undo_stack ∧
             (on_toolButtonLayout_clicked s).redo_stack = []
        else (on_toolButtonLayout_clicked s).undo_stack = s.undo_stack ∧
             (on_toolButtonLayout_clicked s).redo_stack = s.redo_stack)) := by
  rw [toolButtonLayout_eq]
  unfold refreshNodesLayout
  dsimp only
  by_cases hany : (s.tabs.any fun x => decide (x.layout ≠ toggledLayout s.current_layout)) = true
  · rw [if_pos hany]
    have htabs1 : ({ s with
        tabs := s.tabs.map (fun x => if x.layout ≠ toggledLayout s.current_layout
          then { x with layout := toggledLayout s.current_layout } else x),
        current_layout := toggledLayout s.current_layout } : EditorState).tabs
        = (if t.layout ≠ toggledLayout s.current_layout
            then { t with layout := toggledLayout s.current_layout } else t)
          :: rest.map (fun x => if x.layout ≠ toggledLayout s.current_layout
            then { x with layout := toggledLayout s.current_layout } else x) := by
      simp [htabs]
    refine ⟨?_, ?_, ?_, ?_⟩
    · rw [(onPushUndo_fields _).1, htabs1, htabs]
      simp
    · rw [(onPushUndo_fields _).2.1]
    · intro hall
      exfalso
      rw [List.any_eq_true] at hany
      obtain ⟨x, hx, hlx⟩ := hany
      exact absurd (hall x hx) (by simpa using hlx)
    · intro _
      rw [onPushUndo_eq _ _ _ htabs1 (by simp [hen])]
      by_cases hc : s.undo_stack = [] ∨
          (saveToMemory (if t.layout ≠ toggledLayout s.current_layout
             then { t with layout := toggledLayout s.current_layout } else t) ≠ s.current_state ∧
           s.undo_stack.head? ≠ some s.current_state)
      · rw [if_pos hc, if_pos (by simpa using hc)]
        exact ⟨rfl, rfl⟩
      · rw [if_neg hc, if_neg (by simpa using hc)]
        exact ⟨rfl, rfl⟩
  · rw [if_neg hany]
    refine ⟨by simp, by simp, fun _ => ⟨rfl, rfl, rfl⟩, ?_⟩
    intro hex
    exfalso
    obtain ⟨x, hx, hlx⟩ := hex
    exact hany (List.any_eq_true.mpr ⟨x, hx, by simpa using hlx⟩)

/-- C8 witness: the amended statement at the baseline example session (the
toggle relays out the single tab and records the new orientation). -/
theorem c8_witness :
    (on_toolButtonLayout_clicked exampleState).tabs
      = exampleState.tabs.map (fun x => if x.layout ≠ toggledLayout exampleState.current_layout
          then { x with layout := toggledLayout exampleState.current_layout } else x) ∧
    (on_toolButtonLayout_clicked exampleState).current_layout
      = toggledLayout exampleState.current_layout :=
  ⟨(c8_layout_toggle exampleState exampleScene [] rfl rfl).1,
   (c8_layout_toggle exampleState exampleScene [] rfl rfl).2.1⟩

/-- The warning shown by a failed tree build is never the empty string:
it starts with a fixed non-empty prefix. -/
theorem loadErrorMessage_ne_empty (d : String) : loadErrorMessage d ≠ "" := by
  intro h
  unfold loadErrorMessage at h
  have h2 := congrArg String.data h
  rw [String.data_append] at h2
  simp at h2

/-- C2 counterexample: loading a document whose `TreeNodesModel` section
parses (declaring a new entry) but whose tree build fails (no
`BehaviorTree` element) reports an error and leaves the scene and stacks
alone — but the live `TreeNodesModel` is the newly parsed one, not the
pre-load one. -/
theorem c2_counterexample :
    (loadFromXML exampleState (some xmlModelOnlyNoTree)).messages ≠ [] ∧
    (loadFromXML exampleState (some xmlModelOnlyNoTree)).tabs = exampleState.tabs ∧
    (loadFromXML exampleState (some xmlModelOnlyNoTree)).undo_stack = exampleState.undo_stack ∧
    (loadFromXML exampleState (some xmlModelOnlyNoTree)).tree_nodes_model ≠ exampleState.tree_nodes_model := by
  decide

/-- C2 (amended): a structural decode error aborts the load; the
`Document` (the current tab, restored via the snapshot saved just before),
`current_state` and both history stacks are exactly the pre-load ones and a
non-empty error message is reported; however, when the failure occurs while
building the tree, the `TreeNodesModel` has already been replaced by the
successfully parsed model section and is not rolled back (only a failure
inside the model section itself leaves the whole state unchanged apart
from the message). -/
theorem c2_load_failure_rollback (s : EditorState) (t : Scene) (rest : List Scene)
    (xml : XML) (m' : TreeNodesModel) (msgA msgB : String)
    (htabs : s.tabs = t :: rest) (hsync : s.current_state = t) :
    (ReadTreeNodesModel xml = .error msgA →
       loadFromXML s (some xml) = { s with messages := msgA :: s.messages }) ∧
    (ReadTreeNodesModel xml = .ok m' →
     CreateTreeFromXML (xml.findChild "BehaviorTree") m' = .error msgB →
       (loadFromXML s (some xml)).current_state = s.current_state ∧
       (loadFromXML s (some xml)).undo_stack = s.undo_stack ∧
       (loadFromXML s (some xml)).redo_stack = s.redo_stack ∧
       (loadFromXML s (some xml)).tabs.head? = some t ∧
       (loadFromXML s (some xml)).tree_nodes_model = m' ∧
       (loadFromXML s (some xml)).messages = loadErrorMessage msgB :: s.messages ∧
       loadErrorMessage msgB ≠ "") := by
  constructor
  · intro hA
    unfold loadFromXML
    dsimp only
    rw [hA]
  · intro hOk hErr
    unfold loadFromXML
    dsimp only
    rw [hOk]
    dsimp only
    rw [htabs]
    dsimp only
    rw [hErr]
    dsimp only
    rw [loadSceneFromYAML_eq _ s.current_state { t with forest := [] } rest rfl]
    have hco := onSceneChanged_fields { s with
      tree_nodes_model := m'
      tabs := (s.current_state : Scene) ::
        rest.map (fun x => if x.layout ≠ (s.current_state : Scene).layout
          then { x with layout := (s.current_state : Scene).layout } else x)
      current_layout := (s.current_state : Scene).layout
      undo_enabled := true }
    refine ⟨?_, ?_, ?_, ?_, ?_, ?_, loadErrorMessage_ne_empty msgB⟩
    · exact hco.2.2.1
    · exact hco.1
    · exact hco.2.1
    · rw [hco.2.2.2.1]
      simp [hsync, loadFromMemory]
    · exact hco.2.2.2.2.2.2.1
    · rw [hco.2.2.2.2.2.2.2.1]

/-- Category tags written by the encoder are read back as the same
category. -/
theorem nodeTypeFromStr_toStr (nt : NodeType) : nodeTypeFromStr (toStr nt) = some nt := by
  cases nt <;> rfl

/-- A parameter list none of whose labels is "ID" has no "ID" entry. -/
theorem lookup_id_eq_none (p : List (String × String)) (h : ∀ a ∈ p, a.1 ≠ "ID") :
    p.lookup "ID" = none := by
  induction p with
  | nil => rfl
  | cons a as ih =>
    obtain ⟨k, v⟩ := a
    have hk : k ≠ "ID" := h (k, v) (List.mem_cons_self _ _)
    have hbeq : ("ID" == k) = false := beq_eq_false_iff_ne.mpr (Ne.symm hk)
    simp only [List.lookup, hbeq]
    exact ih (fun x hx => h x (List.mem_cons_of_mem _ hx))

/-- Decoding the `Parameter` elements written for a parameter list gives
back that list. -/
theorem parseParamElems_map (ps : List (String × String)) :
    parseParamElems (ps.map (fun p => XML.elem "Parameter" [("label", p.1), ("type", p.2)] []))
      = .ok ps := by
  induction ps with
  | nil => rfl
  | cons a as ih =>
    obtain ⟨l, ty⟩ := a
    simp [parseParamElems, List.lookup, ih]
    rfl

/-- Decoding the `TreeNodesModel` entries written for a model gives back
that model. -/
theorem parseModelEntries_map (m : TreeNodesModel) :
    parseModelEntries (m.map modelEntryToXML) = .ok m := by
  induction m with
  | nil => rfl
  | cons e es ih =>
    obtain ⟨id, nm⟩ := e
    simp [parseModelEntries, modelEntryToXML, nodeTypeFromStr_toStr, parseParamElems_map, ih,
      List.lookup]
    rfl

/-- Reading the `TreeNodesModel` section of a saved document gives back the
model it was written from. -/
theorem ReadTreeNodesModel_save (c : TreeNode) (m : TreeNodesModel) :
    ReadTreeNodesModel (.elem "root" []
      [separatorComment,
       .elem "BehaviorTree" [] [encodeNode c],
       separatorComment,
       .elem "TreeNodesModel" [] (m.map modelEntryToXML),
       separatorComment]) = .ok m := by
  unfold ReadTreeNodesModel
  simp [XML.findChild, XML.findChild.go, separatorComment, parseModelEntries_map]

/-- Decoding the encoded children of a node list gives back that list,
provided no node carries a parameter labelled "ID" (the induction
hypothesis is membership-based). -/
theorem buildChildren_encodeChildren (m : TreeNodesModel) (c : List TreeNode)
    (IH : ∀ x ∈ c, noIDParams x = true → buildNode m (encodeNode x) = .ok x)
    (h : noIDParamsList c = true) :
    buildChildren m (encodeChildren c) = .ok c := by
  induction c with
  | nil => rfl
  | cons x xs ih =>
    obtain ⟨hx, hxs⟩ : noIDParams x = true ∧ noIDParamsList xs = true := by
      simpa [noIDParamsList, Bool.and_eq_true] using h
    have hbx := IH x (List.mem_cons_self _ _) hx
    have hbxs := ih (fun y hy hny => IH y (List.mem_cons_of_mem _ hy) hny) hxs
    cases x with
    | mk n p cs =>
      simp only [encodeNode] at hbx
      simp [encodeChildren, encodeNode, buildChildren, hbx, hbxs]
      rfl

/-- Round trip for one node: decoding its encoding against any model gives
back the node, provided none of its (or its descendants') parameters is
labelled "ID". -/
theorem build_encode (m : TreeNodesModel) (t : TreeNode) :
    noIDParams t = true → buildNode m (encodeNode t) = .ok t := by
  induction t using TreeNode.inductionOn with
  | h n p c IH =>
    intro hno
    obtain ⟨hp, hc⟩ : p.all (fun a => decide (a.1 ≠ "ID")) = true ∧ noIDParamsList c = true := by
      simpa [noIDParams, Bool.and_eq_true] using hno
    have hlk : p.lookup "ID" = none := by
      refine lookup_id_eq_none p ?_
      intro a ha
      have := List.all_eq_true.mp hp a ha
      simpa using this
    have hcs := buildChildren_encodeChildren m c IH hc
    simp [encodeNode, buildNode, hlk, hcs]
    rfl

/-- Binding a successful `Except` computation runs the continuation. -/
theorem except_ok_bind {ε α β : Type} (v : α) (f : α → Except ε β) :
    (Except.ok v : Except ε α) >>= f = f v := rfl

/-- C1: for a valid document (one Root node with a single child subtree,
the Root itself carrying no parameters, and no node parameter labelled
"ID") the save path produces an XML document, and decoding that document
yields exactly the same tree — same node types, same child order, same
parameter values — together with the same `TreeNodesModel`. -/
theorem c1_encode_decode_roundtrip (c : TreeNode) (m : TreeNodesModel) (t : Scene)
    (hforest : t.forest = [TreeNode.mk "Root" [] [c]]) (hc : noIDParams c = true) :
    ∃ xml, saveDocument t m = some xml ∧
           decodeXML xml = .ok (TreeNode.mk "Root" [] [c], m) := by
  have hsave : saveDocument t m = some (.elem "root" []
      [separatorComment,
       .elem "BehaviorTree" [] [encodeNode c],
       separatorComment,
       .elem "TreeNodesModel" [] (m.map modelEntryToXML),
       separatorComment]) := by
    unfold saveDocument
    simp only [findRoots]
    rw [hforest]
    rfl
  refine ⟨_, hsave, ?_⟩
  unfold decodeXML
  rw [ReadTreeNodesModel_save c m]
  have hfind : XML.findChild (XML.elem "root" []
      [separatorComment, XML.elem "BehaviorTree" [] [encodeNode c], separatorComment,
       XML.elem "TreeNodesModel" [] (m.map modelEntryToXML), separatorComment]) "BehaviorTree"
      = some ([], [encodeNode c]) := by
    simp [XML.findChild, XML.findChild.go, separatorComment]
  have hbuild : buildChildren m [encodeNode c] = .ok [c] := by
    have hstep := buildChildren_encodeChildren m [c]
      (fun x hx hnx => by
        rw [List.mem_singleton.mp hx]
        exact build_encode m c (by rw [← List.mem_singleton.mp hx]; exact hnx))
      (by simp [noIDParamsList, hc])
    simpa [encodeChildren] using hstep
  have hct : CreateTreeFromXML (some ([], [encodeNode c])) m = .ok (TreeNode.mk "Root" [] [c]) := by
    simp [CreateTreeFromXML, hbuild]
    rfl
  simp [except_ok_bind, hfind, hct]

/-- C1 witness: the round trip at the concrete example document and
model. -/
theorem c1_witness :
    exampleScene.forest = [TreeNode.mk "Root" [] [exampleAction]] ∧
    noIDParams exampleAction = true ∧
    ∃ xml, saveDocument exampleScene exampleModel = some xml ∧
           decodeXML xml = .ok (TreeNode.mk "Root" [] [exampleAction], exampleModel) :=
  ⟨rfl, by decide,
   c1_encode_decode_roundtrip exampleAction exampleModel exampleScene rfl (by decide)⟩

/-- The last element of a walk that ends in an appended singleton. -/
theorem lastD_append_single (x : Scene) (ys : List Scene) (c : Scene) :
    lastD x (ys ++ [c]) = c := by
  induction ys generalizing x with
  | nil => rfl
  | cons y ys ih => simpa [lastD] using ih y

/-- Unfolding `histPush` over an appended singleton. -/
theorem histPush_append_single (x : Scene) (ys : List Scene) (c : Scene) :
    histPush x (ys ++ [c]) = lastD x ys :: histPush x ys := by
  induction ys generalizing x with
  | nil => rfl
  | cons y ys ih => simp [histPush, lastD, ih y]

/-- Walking back through the pushed history is an involution: undoing
through the stack of a forward walk ends at the start and stacks the
forward walk itself. -/
theorem histPush_lastD_invol (c : Scene) (l : List Scene) :
    lastD (lastD c l) (histPush c l) = c ∧ histPush (lastD c l) (histPush c l) = l := by
  induction l generalizing c with
  | nil => exact ⟨rfl, rfl⟩
  | cons v l ih =>
    constructor
    · simp only [lastD, histPush]
      rw [lastD_append_single]
    · simp only [lastD, histPush]
      rw [histPush_append_single, (ih v).1, (ih v).2]

/-- `histPush` keeps the length of the walked list. -/
theorem histPush_length (c : Scene) (l : List Scene) :
    (histPush c l).length = l.length := by
  induction l generalizing c with
  | nil => rfl
  | cons v l ih => simp [histPush, ih v]

/-- When all edits keep the orientation, so does the final scene. -/
theorem lastD_layout (c : Scene) (l : List Scene) (h : ∀ v ∈ l, v.layout = c.layout) :
    (lastD c l).layout = c.layout := by
  induction l generalizing c with
  | nil => rfl
  | cons v l ih =>
    have hv : v.layout = c.layout := h v (List.mem_cons_self _ _)
    have := ih v (fun x hx => by rw [h x (List.mem_cons_of_mem _ hx), hv])
    simpa [lastD, this] using hv

/-- The edits phase: folding a chain of distinct edits (each followed by
its snapshot push) over a single-tab in-sync session stacks the walked
states (top first) on the undo stack, clears the redo stack, and leaves
`current_state` in sync with the last edit. -/
theorem editsPhase (edits : List Scene) :
    ∀ (c : Scene) (mode : GraphicMode) (mdl : TreeNodesModel) (lk : Bool)
      (msgs : List String) (u : List Snapshot) (lay : PortLayout),
    (u = [] ∨ u.head? ≠ some c) →
    List.Chain' (fun a b => a ≠ b) (c :: edits) →
    edits.foldl applyEditAndPush
      ⟨mode, [c], mdl, u, [], c, true, lay, decide (c.forest.length = 1), lk, msgs⟩
      = ⟨mode, [lastD c edits], mdl, histPush c edits ++ u, [], lastD c edits, true, lay,
         decide ((lastD c edits).forest.length = 1), lk, msgs⟩ := by
  induction edits with
  | nil => intro c mode mdl lk msgs u lay hstack hchain; rfl
  | cons v vs ih =>
    intro c mode mdl lk msgs u lay hstack hchain
    have hne : c ≠ v := (List.chain'_cons.mp hchain).1
    rw [List.foldl_cons]
    have hstep : applyEditAndPush
        ⟨mode, [c], mdl, u, [], c, true, lay, decide (c.forest.length = 1), lk, msgs⟩ v
        = ⟨mode, [v], mdl, c :: u, [], v, true, lay, decide (v.forest.length = 1), lk, msgs⟩ := by
      unfold applyEditAndPush setCurrentScene
      dsimp only
      rw [onPushUndo_eq _ v [] rfl rfl]
      rw [if_pos ?hcond]
      case hcond =>
        rcases hstack with h | h
        · exact Or.inl h
        · exact Or.inr ⟨Ne.symm hne, h⟩
      simp [onSceneChanged, saveToMemory, findRoots]
    rw [hstep]
    have hchain2 : List.Chain' (fun a b => a ≠ b) (v :: vs) := (List.chain'_cons.mp hchain).2
    have hstack2 : (c :: u) = [] ∨ (c :: u).head? ≠ some v := by
      refine Or.inr ?_
      simp only [List.head?_cons, ne_eq, Option.some.injEq]
      exact hne
    rw [ih v mode mdl lk msgs (c :: u) lay hstack2 hchain2]
    simp [lastD, histPush, List.append_assoc]

/-- The undo phase: invoking undo once per stacked entry walks the undo
stack down to its bottom, mirroring it (together with the starting
`current_state`) onto the redo stack. -/
theorem undoPhase (l : List Snapshot) :
    ∀ (c : Scene) (mdl : TreeNodesModel) (rest r : List Snapshot) (lk : Bool)
      (msgs : List String),
    iterateOp onUndoInvoked l.length
      ⟨.EDITOR, [c], mdl, l ++ rest, r, c, true, c.layout, decide (c.forest.length = 1), lk, msgs⟩
      = ⟨.EDITOR, [lastD c l], mdl, rest, histPush c l ++ r, lastD c l, true, (lastD c l).layout,
         decide ((lastD c l).forest.length = 1), lk, msgs⟩ := by
  induction l with
  | nil => intro c mdl rest r lk msgs; rfl
  | cons a l ih =>
    intro c mdl rest r lk msgs
    simp only [List.length_cons]
    rw [iterateOp]
    have hstep : onUndoInvoked
        ⟨.EDITOR, [c], mdl, (a :: l) ++ rest, r, c, true, c.layout,
         decide (c.forest.length = 1), lk, msgs⟩
        = ⟨.EDITOR, [a], mdl, l ++ rest, c :: r, a, true, a.layout,
           decide (a.forest.length = 1), lk, msgs⟩ := by
      have h0 : onUndoInvoked
          ⟨.EDITOR, [c], mdl, (a :: l) ++ rest, r, c, true, c.layout,
           decide (c.forest.length = 1), lk, msgs⟩
          = loadSceneFromYAML
              ⟨.EDITOR, [c], mdl, l ++ rest, c :: r, a, true, c.layout,
               decide (c.forest.length = 1), lk, msgs⟩ a := rfl
      rw [h0, loadSceneFromYAML_single _ a c rfl]
    rw [hstep, ih a mdl rest (c :: r) lk msgs]
    simp [lastD, histPush, List.append_assoc]

/-- The redo phase: symmetric to the undo phase, walking the redo stack
back while mirroring it onto the undo stack. -/
theorem redoPhase (l : List Snapshot) :
    ∀ (c : Scene) (mdl : TreeNodesModel) (rest r : List Snapshot) (lk : Bool)
      (msgs : List String),
    iterateOp onRedoInvoked l.length
      ⟨.EDITOR, [c], mdl, r, l ++ rest, c, true, c.layout, decide (c.forest.length = 1), lk, msgs⟩
      = ⟨.EDITOR, [lastD c l], mdl, histPush c l ++ r, rest, lastD c l, true, (lastD c l).layout,
         decide ((lastD c l).forest.length = 1), lk, msgs⟩ := by
  induction l with
  | nil => intro c mdl rest r lk msgs; rfl
  | cons a l ih =>
    intro c mdl rest r lk msgs
    simp only [List.length_cons]
    rw [iterateOp]
    have hstep : onRedoInvoked
        ⟨.EDITOR, [c], mdl, r, (a :: l) ++ rest, c, true, c.layout,
         decide (c.forest.length = 1), lk, msgs⟩
        = ⟨.EDITOR, [a], mdl, c :: r, l ++ rest, a, true, a.layout,
           decide (a.forest.length = 1), lk, msgs⟩ := by
      have h0 : onRedoInvoked
          ⟨.EDITOR, [c], mdl, r, (a :: l) ++ rest, c, true, c.layout,
           decide (c.forest.length = 1), lk, msgs⟩
          = loadSceneFromYAML
              ⟨.EDITOR, [c], mdl, c :: r, l ++ rest, a, true, c.layout,
               decide (c.forest.length = 1), lk, msgs⟩ a := rfl
      rw [h0, loadSceneFromYAML_single _ a c rfl]
    rw [hstep, ih a mdl rest (c :: r) lk msgs]
    simp [lastD, histPush, List.append_assoc]

/-- C3: starting from a freshly loaded single-tab session, after a chain
of pairwise-distinct edits (each keeping the orientation and each followed
by its snapshot push), invoking undo once per edit and then redo once per
edit restores the entire editor state — in particular the live scene and
`current_state` are back at the state after the last edit — and the undo
stack ends with exactly the same entries (one per edit) it had after the
original edits. -/
theorem c3_undo_redo_duality (t0 : Scene) (m : TreeNodesModel) (edits : List Scene)
    (hchain : List.Chain' (fun a b => a ≠ b) (t0 :: edits))
    (hlay : ∀ v ∈ edits, v.layout = t0.layout) :
    iterateOp onRedoInvoked edits.length
      (iterateOp onUndoInvoked edits.length
        (edits.foldl applyEditAndPush (initialEditorState t0 m)))
      = edits.foldl applyEditAndPush (initialEditorState t0 m) ∧
    (edits.foldl applyEditAndPush (initialEditorState t0 m)).undo_stack.length = edits.length ∧
    (edits.foldl applyEditAndPush (initialEditorState t0 m)).current_state = lastD t0 edits := by
  have hclay : (lastD t0 edits).layout = t0.layout := lastD_layout t0 edits hlay
  have hfold : edits.foldl applyEditAndPush (initialEditorState t0 m)
      = ⟨.EDITOR, [lastD t0 edits], m, histPush t0 edits, [], lastD t0 edits, true,
         t0.layout, decide ((lastD t0 edits).forest.length = 1), false, []⟩ := by
    have h := editsPhase edits t0 .EDITOR m false [] [] t0.layout (Or.inl rfl) hchain
    simp only [List.append_nil] at h
    exact h
  have hundo : iterateOp onUndoInvoked edits.length
      (edits.foldl applyEditAndPush (initialEditorState t0 m))
      = ⟨.EDITOR, [t0], m, [], edits, t0, true, t0.layout,
         decide (t0.forest.length = 1), false, []⟩ := by
    rw [hfold, ← hclay,
        show edits.length = (histPush t0 edits).length from (histPush_length t0 edits).symm]
    have h := undoPhase (histPush t0 edits) (lastD t0 edits) m [] [] false []
    simp only [List.append_nil] at h
    rw [h, (histPush_lastD_invol t0 edits).1, (histPush_lastD_invol t0 edits).2, hclay]
  have hredo : iterateOp onRedoInvoked edits.length
      (⟨.EDITOR, [t0], m, [], edits, t0, true, t0.layout,
        decide (t0.forest.length = 1), false, []⟩ : EditorState)
      = edits.foldl applyEditAndPush (initialEditorState t0 m) := by
    have h := redoPhase edits t0 m [] [] false []
    simp only [List.append_nil] at h
    rw [h, hfold, hclay]
  refine ⟨?_, ?_, ?_⟩
  · rw [hundo, hredo]
  · rw [hfold]
    exact histPush_length t0 edits
  · rw [hfold]

/-- C3 witness: the duality at two concrete distinct edits of the example
scene. -/
theorem c3_witness :
    iterateOp onRedoInvoked 2
      (iterateOp onUndoInvoked 2
        ([exampleEditA, exampleEditB].foldl applyEditAndPush
          (initialEditorState exampleScene exampleModel)))
      = [exampleEditA, exampleEditB].foldl applyEditAndPush
          (initialEditorState exampleScene exampleModel) ∧
    ([exampleEditA, exampleEditB].foldl applyEditAndPush
        (initialEditorState exampleScene exampleModel)).undo_stack.length = 2 ∧
    ([exampleEditA, exampleEditB].foldl applyEditAndPush
        (initialEditorState exampleScene exampleModel)).current_state
      = lastD exampleScene [exampleEditA, exampleEditB] :=
  c3_undo_redo_duality exampleScene exampleModel [exampleEditA, exampleEditB]
    (List.chain'_cons.mpr ⟨by decide, List.chain'_cons.mpr ⟨by decide, List.chain'_singleton _⟩⟩)
    (by decide)

/-- C2 witness: the amended rollback statement at the concrete
model-parses-but-tree-fails document. -/
theorem c2_witness :
    (loadFromXML exampleState (some xmlModelOnlyNoTree)).current_state
      = exampleState.current_state ∧
    (loadFromXML exampleState (some xmlModelOnlyNoTree)).undo_stack = exampleState.undo_stack ∧
    (loadFromXML exampleState (some xmlModelOnlyNoTree)).redo_stack = exampleState.redo_stack ∧
    (loadFromXML exampleState (some xmlModelOnlyNoTree)).tabs.head? = some exampleScene ∧
    (loadFromXML exampleState (some xmlModelOnlyNoTree)).tree_nodes_model
      = [("Foo", ⟨NodeType.Action, []⟩)] ∧
    (loadFromXML exampleState (some xmlModelOnlyNoTree)).messages
      = loadErrorMessage "missing BehaviorTree element" :: exampleState.messages ∧
    loadErrorMessage "missing BehaviorTree element" ≠ "" :=
  (c2_load_failure_rollback exampleState exampleScene [] xmlModelOnlyNoTree
      [("Foo", ⟨NodeType.Action, []⟩)] "" "missing BehaviorTree element" rfl rfl).2 rfl rfl
